import Mathlib

/-!
Shallow embedding of the `pubsub` package of the redutil repository:
the Field/Event data model (`pubsub/event.go`, given as `src/unnamed/part_001`),
the listener registry (`record`, `recordList`) and the `PubsubEmitter`
(`src/pubsub/redis.go`).  Go's mutating methods are embedded as pure
state-passing functions; the `send` channel is embedded as the list of
commands an operation enqueues; Go runtime panics are embedded as `none`
results of `Option`-returning functions.
-/

namespace Redutil

/-- Go listeners are interface values compared by identity (`l == fn` in
`recordList.Remove`); we model each listener as an opaque numeric identity. -/
abbrev Listener := Nat

/-- Go `int` is a 64-bit signed machine integer on the platforms redutil
targets; we embed its values as unbounded `Int` and put the 64-bit range
bound in theorem hypotheses where it matters. -/
abbrev GoInt := Int

/-- `EventType` distinguishes pattern and plain text events.
Go: `type EventType int` with constants `PlainEvent = 0`, `PatternEvent = 1`;
all other integer values panic in `SubCommand`/`UnsubCommand` and never occur,
so they are unrepresentable here. -/
inductive EventType where
  | PlainEvent
  | PatternEvent
deriving DecidableEq

/-- `EventType.SubCommand`: the command issued to subscribe to the event. -/
def EventType.SubCommand : EventType → String
  | .PlainEvent => "SUBSCRIBE"
  | .PatternEvent => "PSUBSCRIBE"

/-- `EventType.UnsubCommand`: the command issued to unsubscribe from the event. -/
def EventType.UnsubCommand : EventType → String
  | .PlainEvent => "UNSUBSCRIBE"
  | .PatternEvent => "PUNSUBSCRIBE"

/-- `Field`: one segment of an event name (`pubsub/event.go`). -/
structure Field where
  valid : Bool
  aliasStr : String
  value : String
deriving DecidableEq

/-- `Field.As` sets the alias of the field. -/
def Field.As (f : Field) (a : String) : Field :=
  { valid := f.valid, value := f.value, aliasStr := a }

/-- `Field.IsZero` returns true if the field is empty. -/
def Field.IsZero (f : Field) : Bool := !f.valid

/-- Error taxonomy of Go's `strconv` parse functions: `strconv.ErrSyntax`
(value is not well-formed for the base) and `strconv.ErrRange`
(well-formed but out of the target bit-size's range). -/
inductive ParseErr where
  | invalidNum
  | outOfRange
deriving DecidableEq

/-- Digit value of a character, `none` when the character is not a decimal
digit (Go `strconv` base-10 accepts exactly `'0'..'9'`). -/
def charDigit? (c : Char) : Option Nat :=
  if 48 ≤ c.toNat ∧ c.toNat ≤ 57 then some (c.toNat - 48) else none

/-- Accumulating base-10 parse of a digit string, `none` on any non-digit. -/
def parseNatCore : List Char → Nat → Option Nat
  | [], acc => some acc
  | c :: cs, acc =>
    match charDigit? c with
    | none => none
    | some d => parseNatCore cs (acc * 10 + d)

/-- Base-10 parse of a non-empty digit string (Go `strconv` rejects an
empty digit sequence as a syntax error). -/
def parseNat? : List Char → Option Nat
  | [] => none
  | cs => parseNatCore cs 0

/-- Base-10 parse of an optionally-signed decimal string, as accepted by
Go's `strconv.ParseInt(s, 10, _)`: an optional leading `+` or `-`, then one
or more decimal digits; anything else is a syntax error (`none`). -/
def parseDec? (s : String) : Option Int :=
  match s.data with
  | [] => none
  | c :: cs =>
    if c = '-' then Option.map (fun n : Nat => -(n : Int)) (parseNat? cs)
    else if c = '+' then Option.map (fun n : Nat => (n : Int)) (parseNat? cs)
    else Option.map (fun n : Nat => (n : Int)) (parseNat? (c :: cs))

/-- Little-endian base-10 digits of `n`, with an explicit structural fuel
(`n` itself suffices since `n / 10 < n` for `n ≠ 0`).  Mirrors the digit
loop of Go's `strconv.FormatInt`. -/
def natDigitsAux : Nat → Nat → List Nat
  | 0, _ => []
  | fuel + 1, n => if n = 0 then [] else n % 10 :: natDigitsAux fuel (n / 10)

/-- Little-endian base-10 value of a digit list (specification device for
relating `natDigitsAux` to the number it renders). -/
def ofLE : List Nat → Nat
  | [] => 0
  | d :: ds => d + 10 * ofLE ds

/-- The character for a single decimal digit (digits are always `< 10`). -/
def digitChar : Nat → Char
  | 0 => '0' | 1 => '1' | 2 => '2' | 3 => '3' | 4 => '4'
  | 5 => '5' | 6 => '6' | 7 => '7' | 8 => '8' | _ => '9'

/-- Decimal rendering of a natural number, as Go's `strconv.FormatUint`. -/
def natToString (n : Nat) : String :=
  if n = 0 then "0" else String.mk (((natDigitsAux n n).reverse).map digitChar)

/-- Go's `strconv.Itoa`: decimal rendering of a (signed) integer. -/
def goItoa (x : GoInt) : String :=
  if x < 0 then "-" ++ natToString x.natAbs else natToString x.toNat

/-- Go's `strconv.ParseInt(s, 10, bitSize)`: returns the parsed value and
`nil` error, or `(0, ErrSyntax)` on a malformed string, or the clamped
boundary value and `ErrRange` when the value does not fit in `bitSize`
signed bits. -/
def goParseInt (s : String) (bitSize : Nat) : GoInt × Option ParseErr :=
  match parseDec? s with
  | none => (0, some .invalidNum)
  | some v =>
    if v > 2 ^ (bitSize - 1) - 1 then (2 ^ (bitSize - 1) - 1, some .outOfRange)
    else if v < -(2 ^ (bitSize - 1) : Int) then (-(2 ^ (bitSize - 1) : Int), some .outOfRange)
    else (v, none)

/-- Go's `strconv.ParseUint(s, 10, bitSize)`: sign prefixes are not
permitted; an over-range value is clamped to the maximum with `ErrRange`. -/
def goParseUint (s : String) (bitSize : Nat) : Nat × Option ParseErr :=
  match s.data with
  | [] => (0, some .invalidNum)
  | c :: cs =>
    if c = '-' ∨ c = '+' then (0, some .invalidNum)
    else
      match parseNat? (c :: cs) with
      | none => (0, some .invalidNum)
      | some n =>
        if n > 2 ^ bitSize - 1 then (2 ^ bitSize - 1, some .outOfRange) else (n, none)

/-- `Field.Int64` attempts to parse and return the field value as an int64
(`strconv.ParseInt(f.value, 10, 64)`). -/
def Field.Int64 (f : Field) : GoInt × Option ParseErr := goParseInt f.value 64

/-- `Field.Uint64` attempts to parse and return the field value as a uint64
(`strconv.ParseUint(f.value, 10, 64)`). -/
def Field.Uint64 (f : Field) : Nat × Option ParseErr := goParseUint f.value 64

/-- `Field.Int` attempts to parse and return the field value as an integer.
The Go source calls `strconv.ParseInt(f.value, 10, 32)` — bit size 32 —
and converts the result to `int`. -/
def Field.Int (f : Field) : GoInt × Option ParseErr := goParseInt f.value 32

/-- Go's `String(str)` constructor: a valid Field containing a string. -/
def StringF (str : String) : Field := { valid := true, aliasStr := "", value := str }

/-- Go's `Int(x)` constructor: a valid Field containing the decimal
rendering of an integer. -/
def IntF (x : GoInt) : Field := { valid := true, aliasStr := "", value := goItoa x }

/-- Go's `Star()` constructor: a field containing the Kleene star `*`. -/
def Star : Field := { valid := true, aliasStr := "", value := "*" }

/-- An `Event`: an ordered sequence of fields plus a kind tag. -/
structure Event where
  fields : List Field
  kind : EventType
deriving DecidableEq

/-- `Event.Len` returns the number of fields contained in the event. -/
def Event.Len (e : Event) : Nat := e.fields.length

/-- `Event.Get` returns the field at index `i`.  The Go source checks only
`len(e.fields) <= i` before indexing `e.fields[i]`, so a negative `i`
reaches the index expression and panics at runtime; the panic is embedded
as `none`. -/
def Event.Get (e : Event) (i : GoInt) : Option Field :=
  if (e.fields.length : Int) ≤ i then
    some { valid := false, aliasStr := "", value := "" }
  else if h : 0 ≤ i ∧ i.toNat < e.fields.length then
    some (e.fields.get ⟨i.toNat, h.2⟩)
  else
    none

/-- Loop body of `Event.Find`: first field whose alias matches, else an
empty struct. -/
def findFieldAux (a : String) : List Field → Field
  | [] => { valid := false, aliasStr := "", value := "" }
  | f :: fs => if f.aliasStr = a then f else findFieldAux a fs

/-- `Event.Find` looks up a field by its alias, returning the first field
whose alias equals the argument, else an empty struct. -/
def Event.Find (e : Event) (a : String) : Field :=
  findFieldAux a e.fields

/-- `Event.Name` returns the name of the event: the concatenation of all
the event fields' values (`strings.Join(strs, "")`). -/
def Event.Name (e : Event) : String :=
  (e.fields.map Field.value).foldl (· ++ ·) ""

/-- `Event.Type` returns the type of the event. -/
def Event.Type (e : Event) : EventType := e.kind

/-- `NewEvent` creates a plain event from a base name and a series of
fields (Go prepends `toFieldFromString(name)`; we take the common string
case of that conversion). -/
def NewEvent (name : String) (fields : List Field) : Event :=
  { fields := StringF name :: fields, kind := .PlainEvent }

/-- `NewPatternEvent` creates a pattern event from a base name and fields. -/
def NewPatternEvent (name : String) (fields : List Field) : Event :=
  { fields := StringF name :: fields, kind := .PatternEvent }

/-- A `record` holds the listeners attached to one event name
(`pubsub/redis.go`). -/
structure record where
  name : String
  ev : Event
  list : List Listener
deriving DecidableEq

/-- `record.Emit` invokes all attached listeners with the provided event;
we embed the invocations as the list of `(listener, event, payload)`
calls, in order. -/
def record.Emit (r : record) (ev : Event) (b : List Nat) :
    List (Listener × Event × List Nat) :=
  r.list.map (fun l => (l, ev, b))

/-- A `recordList` registry: a sequence of records. -/
structure recordList where
  list : List record
deriving DecidableEq

/-- Loop body of `recordList.find`: scan for the first record whose name
matches, carrying the current index. -/
def findRecAux (ev : String) : Nat → List record → Option (Nat × record)
  | _, [] => none
  | i, rec :: rest =>
    if rec.name = ev then some (i, rec) else findRecAux ev (i + 1) rest

/-- `recordList.find` looks up the index and record for the provided event
name; Go returns `(-1, nil)` when none is found, embedded as `none`. -/
def recordList.find (r : recordList) (ev : String) : Option (Nat × record) :=
  findRecAux ev 0 r.list

/-- `recordList.FindCopy` looks up a record by event name and returns a
copy of it (an empty record when the name is absent). -/
def recordList.FindCopy (r : recordList) (ev : String) : record :=
  match r.find ev with
  | none => { name := "", ev := { fields := [], kind := .PlainEvent }, list := [] }
  | some (_, rec) => { ev := rec.ev, name := rec.name, list := rec.list }

/-- Go's "swap with last element" removal at index `i`:
`l[i] = l[len(l)-1]; l = l[:len(l)-1]`.  Only ever invoked with `i` in
range on a non-empty list. -/
def swapRemoveAt {α : Type} (l : List α) (i : Nat) : List α :=
  match l.getLast? with
  | none => l
  | some last => (l.set i last).dropLast

/-- The listener-removal loop of `recordList.Remove`: find the first
listener identical to `fn` and cut it with a swap-with-last. -/
def removeListener (l : List Listener) (fn : Listener) : List Listener :=
  match l.findIdx? (fun x => x = fn) with
  | none => l
  | some i => swapRemoveAt l i

/-- `recordList.Add` inserts a new listener for an event, returning the
updated registry and the incremented number of listeners for that name. -/
def recordList.Add (r : recordList) (ev : Event) (fn : Listener) :
    recordList × Nat :=
  match r.find ev.Name with
  | none =>
    (⟨r.list ++ [{ ev := ev, name := ev.Name, list := [fn] }]⟩, 1)
  | some (i, rec) =>
    (⟨r.list.set i { rec with list := rec.list ++ [fn] }⟩, rec.list.length + 1)

/-- `recordList.Remove` deletes the listener from the event, returning the
updated registry and the event's remaining listener count (0 when the name
was not found, or when the record became empty — in which case the record
itself is also cut from the registry with a swap-with-last). -/
def recordList.Remove (r : recordList) (ev : Event) (fn : Listener) :
    recordList × Nat :=
  match r.find ev.Name with
  | none => (r, 0)
  | some (i, rec) =>
    let newList := removeListener rec.list fn
    if newList.length > 0 then
      (⟨r.list.set i { rec with list := newList }⟩, newList.length)
    else
      (⟨swapRemoveAt r.list i⟩, 0)

/-- A `command` posted to the write pump: a verb and its arguments
(the only argument ever passed is an event name string). -/
structure command where
  command : String
  args : List String
deriving DecidableEq

/-- The registry state of a `PubsubEmitter`: Go's `subs []*recordList`
slice indexed by `EventType` (`PlainEvent`, `PatternEvent`), protected by
`subsMu`.  The channels (`errs`, `closer`, `send`) carry no registry
state; commands pushed to `send` are returned by each operation instead. -/
structure PubsubEmitter where
  subs : EventType → recordList

/-- `NewPubsubEmitter`'s initial registry state: one empty record list per
event type. -/
def NewPubsubEmitter : PubsubEmitter :=
  { subs := fun _ => ⟨[]⟩ }

/-- `PubsubEmitter.Subscribe`: adds the listener to the registry for the
event's type under lock, and enqueues one subscribe command exactly when
the resulting listener count is 1. -/
def PubsubEmitter.Subscribe (p : PubsubEmitter) (ev : Event) (l : Listener) :
    PubsubEmitter × List command :=
  let res := (p.subs ev.Type).Add ev l
  ({ subs := fun k => if k = ev.Type then res.1 else p.subs k },
   if res.2 = 1 then [{ command := ev.Type.SubCommand, args := [ev.Name] }] else [])

/-- `PubsubEmitter.Unsubscribe`: removes the listener from the registry
for the event's type under lock, and enqueues one unsubscribe command
exactly when the returned listener count is 0. -/
def PubsubEmitter.Unsubscribe (p : PubsubEmitter) (ev : Event) (l : Listener) :
    PubsubEmitter × List command :=
  let res := (p.subs ev.Type).Remove ev l
  ({ subs := fun k => if k = ev.Type then res.1 else p.subs k },
   if res.2 = 0 then [{ command := ev.Type.UnsubCommand, args := [ev.Name] }] else [])

/-- `PubsubEmitter.resubscribe`: drains the pending `send` queue and
enqueues, for each event type in slice order (`PlainEvent` then
`PatternEvent`) and each record in registry order, one subscribe command
with that type's verb and the record's stored name.  The registries are
only read, never written. -/
def PubsubEmitter.resubscribe (p : PubsubEmitter) (pending : List command) :
    PubsubEmitter × List command :=
  (p,
   ((p.subs .PlainEvent).list.map
      (fun r => { command := EventType.PlainEvent.SubCommand, args := [r.name] }))
   ++ ((p.subs .PatternEvent).list.map
      (fun r => { command := EventType.PatternEvent.SubCommand, args := [r.name] })))

/-- `PubsubEmitter.handleEvent` on a plain message: snapshot the plain
registry's record for the channel and emit the payload to its listeners. -/
def PubsubEmitter.handleEvent (p : PubsubEmitter) (channel : String)
    (payload : List Nat) : List (Listener × Event × List Nat) :=
  let r := (p.subs .PlainEvent).FindCopy channel
  r.Emit r.ev payload

/-- A registry operation, for stating reachability invariants over any
sequence of `Add`/`Remove` calls. -/
inductive RegOp where
  | add (ev : Event) (fn : Listener)
  | remove (ev : Event) (fn : Listener)

/-- Apply one registry operation. -/
def applyRegOp (r : recordList) : RegOp → recordList
  | .add ev fn => (r.Add ev fn).1
  | .remove ev fn => (r.Remove ev fn).1

/-- Run a sequence of registry operations from a starting registry. -/
def runRegOps (r : recordList) (ops : List RegOp) : recordList :=
  ops.foldl applyRegOp r

/-- The event names currently recorded in a registry. -/
def recordList.names (r : recordList) : List String :=
  r.list.map record.name

/-! ## Decimal rendering / parsing roundtrip -/

theorem ofLE_natDigitsAux : ∀ (fuel n : Nat), n ≤ fuel → ofLE (natDigitsAux fuel n) = n
  | 0, n, h => by
    have : n = 0 := Nat.le_zero.mp h
    subst this; rfl
  | fuel + 1, n, h => by
    rw [natDigitsAux]
    by_cases hn : n = 0
    · simp [hn, ofLE]
    · rw [if_neg hn, ofLE]
      have hdle : n / 10 ≤ fuel := by
        have h1 : n / 10 < n := Nat.div_lt_self (Nat.pos_of_ne_zero hn) (by norm_num)
        omega
      rw [ofLE_natDigitsAux fuel (n / 10) hdle]
      omega

theorem natDigitsAux_lt : ∀ (fuel n : Nat), ∀ d ∈ natDigitsAux fuel n, d < 10
  | 0, _ => by simp [natDigitsAux]
  | fuel + 1, n => by
    rw [natDigitsAux]
    by_cases hn : n = 0
    · simp [hn]
    · rw [if_neg hn]
      intro d hd
      rcases List.mem_cons.mp hd with h | h
      · subst h; exact Nat.mod_lt _ (by norm_num)
      · exact natDigitsAux_lt fuel (n / 10) d h

theorem natDigitsAux_ne_nil (n : Nat) (hn : n ≠ 0) : natDigitsAux n n ≠ [] := by
  cases n with
  | zero => exact absurd rfl hn
  | succ m => rw [natDigitsAux, if_neg hn]; simp

theorem charDigit?_digitChar (d : Nat) (h : d < 10) : charDigit? (digitChar d) = some d := by
  interval_cases d <;> decide

theorem digitChar_ne_sign (d : Nat) (h : d < 10) : digitChar d ≠ '-' ∧ digitChar d ≠ '+' := by
  interval_cases d <;> exact ⟨by decide, by decide⟩

theorem parseNatCore_digits : ∀ (ds : List Nat), (∀ d ∈ ds, d < 10) → ∀ (acc : Nat),
    parseNatCore (ds.map digitChar) acc = some (ds.foldl (fun a d => a * 10 + d) acc)
  | [], _, acc => rfl
  | d :: ds, h, acc => by
    rw [List.map_cons, parseNatCore, charDigit?_digitChar d (h d (by simp))]
    exact parseNatCore_digits ds (fun x hx => h x (by simp [hx])) _

theorem foldl_reverse_ofLE : ∀ (ds : List Nat) (acc : Nat),
    ds.reverse.foldl (fun a d => a * 10 + d) acc = acc * 10 ^ ds.length + ofLE ds
  | [], acc => by simp [ofLE]
  | d :: ds, acc => by
    rw [List.reverse_cons, List.foldl_append, foldl_reverse_ofLE ds acc]
    simp only [List.foldl_cons, List.foldl_nil, ofLE, List.length_cons]
    ring

theorem parseNat?_of_ne_nil (cs : List Char) (h : cs ≠ []) :
    parseNat? cs = parseNatCore cs 0 := by
  cases cs with
  | nil => exact absurd rfl h
  | cons c cs => rfl

theorem parseDec?_data (s : String) (c : Char) (cs : List Char) (h : s.data = c :: cs) :
    parseDec? s =
      if c = '-' then Option.map (fun n : Nat => -(n : Int)) (parseNat? cs)
      else if c = '+' then Option.map (fun n : Nat => (n : Int)) (parseNat? cs)
      else Option.map (fun n : Nat => (n : Int)) (parseNat? (c :: cs)) := by
  rw [parseDec?, h]

theorem goParseInt_some (s : String) (v : Int) (h : parseDec? s = some v) (bitSize : Nat) :
    goParseInt s bitSize =
      if v > 2 ^ (bitSize - 1) - 1 then (2 ^ (bitSize - 1) - 1, some .outOfRange)
      else if v < -(2 ^ (bitSize - 1) : Int) then (-(2 ^ (bitSize - 1) : Int), some .outOfRange)
      else (v, none) := by
  rw [goParseInt, h]

theorem goParseUint_data (s : String) (c : Char) (cs : List Char) (h : s.data = c :: cs)
    (bitSize : Nat) :
    goParseUint s bitSize =
      if c = '-' ∨ c = '+' then (0, some .invalidNum)
      else
        match parseNat? (c :: cs) with
        | none => (0, some .invalidNum)
        | some n =>
          if n > 2 ^ bitSize - 1 then (2 ^ bitSize - 1, some .outOfRange) else (n, none) := by
  rw [goParseUint, h]

theorem goParseUint_some (s : String) (c : Char) (cs : List Char) (h : s.data = c :: cs)
    (hc : ¬(c = '-' ∨ c = '+')) (n : Nat) (hn : parseNat? (c :: cs) = some n) (bitSize : Nat) :
    goParseUint s bitSize =
      if n > 2 ^ bitSize - 1 then (2 ^ bitSize - 1, some .outOfRange) else (n, none) := by
  rw [goParseUint_data s c cs h bitSize, if_neg hc, hn]

theorem parseNat?_natToString (n : Nat) : parseNat? (natToString n).data = some n := by
  by_cases hn : n = 0
  · subst hn; decide
  · rw [natToString, if_neg hn]
    have hmemlt : ∀ d ∈ (natDigitsAux n n).reverse, d < 10 := by
      intro d hd
      exact natDigitsAux_lt n n d (List.mem_reverse.mp hd)
    have hne : ((natDigitsAux n n).reverse).map digitChar ≠ [] := by
      simp [natDigitsAux_ne_nil n hn]
    rw [show (String.mk (((natDigitsAux n n).reverse).map digitChar)).data
        = ((natDigitsAux n n).reverse).map digitChar from rfl]
    rw [parseNat?_of_ne_nil _ hne, parseNatCore_digits _ hmemlt 0,
        foldl_reverse_ofLE, ofLE_natDigitsAux n n le_rfl]
    simp

theorem natToString_head_not_sign (n : Nat) (c : Char) (cs : List Char)
    (hd : (natToString n).data = c :: cs) : c ≠ '-' ∧ c ≠ '+' := by
  by_cases hn : n = 0
  · subst hn
    have : (natToString 0).data = ['0'] := by decide
    rw [this] at hd
    cases hd
    exact ⟨by decide, by decide⟩
  · have hc : c ∈ (natToString n).data := by rw [hd]; exact List.mem_cons_self c cs
    rw [natToString, if_neg hn] at hc
    rw [show (String.mk (((natDigitsAux n n).reverse).map digitChar)).data
        = ((natDigitsAux n n).reverse).map digitChar from rfl] at hc
    rcases List.mem_map.mp hc with ⟨d, hdm, hdc⟩
    have hdlt : d < 10 := natDigitsAux_lt n n d (List.mem_reverse.mp hdm)
    rw [← hdc]
    exact digitChar_ne_sign d hdlt

theorem parseDec?_natToString (n : Nat) : parseDec? (natToString n) = some (n : Int) := by
  have hp := parseNat?_natToString n
  rcases hd : (natToString n).data with _ | ⟨c, cs⟩
  · rw [hd] at hp; simp [parseNat?] at hp
  · have hc := natToString_head_not_sign n c cs hd
    rw [parseDec?_data _ c cs hd, if_neg hc.1, if_neg hc.2, ← hd, hp]
    rfl

theorem parseDec?_goItoa (x : GoInt) : parseDec? (goItoa x) = some x := by
  rw [goItoa]
  by_cases hx : x < 0
  · rw [if_pos hx]
    have hd : ("-" ++ natToString x.natAbs).data = '-' :: (natToString x.natAbs).data := by
      rw [String.data_append]
      rfl
    rw [parseDec?_data _ '-' _ hd, if_pos rfl, parseNat?_natToString x.natAbs]
    have habs : ((x.natAbs : Nat) : Int) = -x :=
      Int.ofNat_natAbs_of_nonpos (le_of_lt hx)
    simp [habs]
  · rw [if_neg hx, parseDec?_natToString]
    have : ((x.toNat : Nat) : Int) = x := Int.toNat_of_nonneg (not_lt.mp hx)
    rw [this]

theorem goParseInt_goItoa (x : GoInt) (bitSize : Nat)
    (h1 : -(2 ^ (bitSize - 1) : Int) ≤ x) (h2 : x ≤ 2 ^ (bitSize - 1) - 1) :
    goParseInt (goItoa x) bitSize = (x, none) := by
  rw [goParseInt_some _ x (parseDec?_goItoa x) bitSize,
      if_neg (not_lt.mpr h2), if_neg (not_lt.mpr h1)]

theorem goParseUint_natToString (n : Nat) (bitSize : Nat) (h : n ≤ 2 ^ bitSize - 1) :
    goParseUint (natToString n) bitSize = (n, none) := by
  have hp := parseNat?_natToString n
  rcases hd : (natToString n).data with _ | ⟨c, cs⟩
  · rw [hd] at hp; simp [parseNat?] at hp
  · have hc := natToString_head_not_sign n c cs hd
    rw [goParseUint_some _ c cs hd (by
        rintro (h' | h')
        · exact hc.1 h'
        · exact hc.2 h') n (by rw [← hd]; exact hp) bitSize,
      if_neg (not_lt.mpr h)]

/-! ## Swap-with-last removal -/

theorem swapRemoveAt_perm {α : Type} : ∀ (l : List α) (i : Nat), i < l.length →
    (swapRemoveAt l i).Perm (l.eraseIdx i)
  | [], i, h => by simp at h
  | x :: xs, 0, _ => by
    rw [swapRemoveAt, List.getLast?_eq_getLast_of_ne_nil (List.cons_ne_nil x xs)]
    by_cases hxs : xs = []
    · subst hxs; simp
    · rw [List.getLast_cons hxs]
      show (((x :: xs).set 0 (xs.getLast hxs)).dropLast).Perm ((x :: xs).eraseIdx 0)
      rw [List.set_cons_zero, List.dropLast_cons_of_ne_nil hxs]
      show (xs.getLast hxs :: xs.dropLast).Perm xs
      conv_rhs => rw [← List.dropLast_append_getLast hxs]
      exact (List.perm_append_singleton _ _).symm
  | x :: xs, j + 1, h => by
    have hj : j < xs.length := by simpa using h
    have hxs : xs ≠ [] := by
      intro he; rw [he] at hj; simp at hj
    rw [swapRemoveAt, List.getLast?_eq_getLast_of_ne_nil (List.cons_ne_nil x xs),
        List.getLast_cons hxs]
    show (((x :: xs).set (j + 1) (xs.getLast hxs)).dropLast).Perm ((x :: xs).eraseIdx (j + 1))
    rw [List.set_cons_succ]
    have hset : xs.set j (xs.getLast hxs) ≠ [] := by
      intro he
      have hlen := congrArg List.length he
      rw [List.length_set] at hlen
      simp at hlen
      rw [hlen] at hj
      simp at hj
    rw [List.dropLast_cons_of_ne_nil hset]
    show (x :: (xs.set j (xs.getLast hxs)).dropLast).Perm ((x :: xs).eraseIdx (j + 1))
    show (x :: (xs.set j (xs.getLast hxs)).dropLast).Perm (x :: xs.eraseIdx j)
    refine List.Perm.cons x ?_
    have hrec := swapRemoveAt_perm xs j hj
    rw [swapRemoveAt, List.getLast?_eq_getLast_of_ne_nil hxs] at hrec
    exact hrec

theorem swapRemoveAt_length {α : Type} (l : List α) (i : Nat) (h : i < l.length) :
    (swapRemoveAt l i).length = l.length - 1 := by
  rw [(swapRemoveAt_perm l i h).length_eq, List.length_eraseIdx, if_pos h]

theorem count_eraseIdx {α : Type} [DecidableEq α] (l : List α) (i : Nat)
    (h : i < l.length) (a : α) :
    (l.eraseIdx i).count a = l.count a - (if l[i] = a then 1 else 0) := by
  have hl : l = l.take i ++ l[i] :: l.drop (i + 1) := by
    conv_lhs => rw [← List.take_append_drop i l]
    rw [List.drop_eq_getElem_cons h]
  have hc : l.count a
      = (l.take i).count a + ((l.drop (i + 1)).count a + if l[i] == a then 1 else 0) := by
    conv_lhs => rw [hl]
    rw [List.count_append, List.count_cons]
  rw [List.eraseIdx_eq_take_drop_succ, List.count_append, hc]
  by_cases ha : l[i] = a
  · simp [ha]
  · simp [ha]

theorem map_eraseIdx_comm {α β : Type} (f : α → β) (l : List α) (i : Nat) :
    (l.eraseIdx i).map f = (l.map f).eraseIdx i := by
  rw [List.eraseIdx_eq_take_drop_succ, List.eraseIdx_eq_take_drop_succ, List.map_append,
      List.map_take, List.map_drop]

theorem swapRemoveAt_map {α β : Type} (f : α → β) (l : List α) (i : Nat) :
    (swapRemoveAt l i).map f = swapRemoveAt (l.map f) i := by
  rw [swapRemoveAt, swapRemoveAt, List.getLast?_map]
  cases hgl : l.getLast? with
  | none =>
    have : l = [] := List.getLast?_eq_none_iff.mp hgl
    subst this
    simp
  | some a =>
    show List.map f ((l.set i a).dropLast) = ((l.map f).set i (f a)).dropLast
    rw [List.map_dropLast, List.map_set]

theorem set_self {α : Type} : ∀ (l : List α) (i : Nat) (h : i < l.length), l.set i l[i] = l
  | [], i, h => by simp at h
  | x :: xs, 0, _ => rfl
  | x :: xs, i + 1, h => by
    rw [List.set_cons_succ, List.getElem_cons_succ]
    rw [set_self xs i (by simpa using h)]

/-! ## The listener-removal loop -/

theorem eraseIdx_findIdx_eq_erase (fn : Listener) : ∀ (l : List Listener), fn ∈ l →
    l.eraseIdx (l.findIdx (fun x => x = fn)) = l.erase fn
  | [], h => by simp at h
  | x :: xs, h => by
    by_cases hx : x = fn
    · subst hx
      rw [List.findIdx_cons]
      simp
    · rw [List.findIdx_cons]
      have hdec : (decide (x = fn)) = false := by simp [hx]
      rw [hdec]
      simp only [cond_false]
      have hmem : fn ∈ xs := by
        rcases List.mem_cons.mp h with h' | h'
        · exact absurd h'.symm hx
        · exact h'
      show x :: xs.eraseIdx (xs.findIdx (fun x => x = fn)) = (x :: xs).erase fn
      rw [List.erase_cons_tail (by simp [hx]), eraseIdx_findIdx_eq_erase fn xs hmem]

theorem removeListener_eq_of_not_mem (l : List Listener) (fn : Listener) (h : fn ∉ l) :
    removeListener l fn = l := by
  rw [removeListener]
  have hnone : l.findIdx? (fun x => x = fn) = none := by
    rw [List.findIdx?_eq_none_iff]
    intro x hx
    by_cases he : x = fn
    · subst he; exact absurd hx h
    · simp [he]
  rw [hnone]

theorem removeListener_perm (l : List Listener) (fn : Listener) (h : fn ∈ l) :
    (removeListener l fn).Perm (l.erase fn) := by
  rw [removeListener]
  have hex : ∃ x ∈ l, (fun x => decide (x = fn)) x = true := ⟨fn, h, by simp⟩
  rw [List.findIdx?_eq_some_of_exists hex]
  show (swapRemoveAt l (l.findIdx fun x => decide (x = fn))).Perm (l.erase fn)
  have hlt := List.findIdx_lt_length_of_exists hex
  exact (swapRemoveAt_perm l _ hlt).trans
    (by rw [eraseIdx_findIdx_eq_erase fn l h])

theorem removeListener_count (l : List Listener) (fn g : Listener) :
    (removeListener l fn).count g =
      if fn ∈ l ∧ g = fn then l.count g - 1 else l.count g := by
  by_cases hm : fn ∈ l
  · have hp := (removeListener_perm l fn hm).count_eq g
    by_cases hg : g = fn
    · subst hg; rw [if_pos ⟨hm, rfl⟩, hp, List.count_erase_self]
    · rw [if_neg (by tauto), hp, List.count_erase_of_ne hg]
  · rw [removeListener_eq_of_not_mem l fn hm, if_neg (by tauto)]

theorem removeListener_length (l : List Listener) (fn : Listener) (h : fn ∈ l) :
    (removeListener l fn).length = l.length - 1 := by
  rw [(removeListener_perm l fn h).length_eq, List.length_erase_of_mem h]

/-! ## Registry lookup characterization -/

theorem findRecAux_eq_none_iff (ev : String) : ∀ (l : List record) (k : Nat),
    (findRecAux ev k l = none ↔ ∀ r ∈ l, r.name ≠ ev)
  | [], k => by simp [findRecAux]
  | x :: xs, k => by
    rw [findRecAux]
    by_cases hx : x.name = ev
    · rw [if_pos hx]
      constructor
      · intro hc; exact absurd hc (Option.some_ne_none _)
      · intro hall; exact absurd hx (hall x (List.mem_cons_self x xs))
    · rw [if_neg hx, findRecAux_eq_none_iff ev xs (k + 1)]
      constructor
      · intro hall r hr
        rcases List.mem_cons.mp hr with h | h
        · subst h; exact hx
        · exact hall r h
      · intro hall r hr
        exact hall r (List.mem_cons_of_mem x hr)

theorem findRecAux_eq_some (ev : String) : ∀ (l : List record) (k i : Nat) (rec : record),
    findRecAux ev k l = some (i, rec) →
      k ≤ i ∧ i - k < l.length ∧ l[i - k]? = some rec ∧ rec.name = ev
  | [], k, i, rec => by simp [findRecAux]
  | x :: xs, k, i, rec => by
    rw [findRecAux]
    by_cases hx : x.name = ev
    · rw [if_pos hx]
      intro h
      simp only [Option.some.injEq, Prod.mk.injEq] at h
      obtain ⟨rfl, rfl⟩ := h
      refine ⟨le_rfl, ?_, ?_, hx⟩
      · simp
      · simp
    · rw [if_neg hx]
      intro h
      obtain ⟨h1, h2, h3, h4⟩ := findRecAux_eq_some ev xs (k + 1) i rec h
      refine ⟨by omega, by rw [List.length_cons]; omega, ?_, h4⟩
      have hik : i - k = (i - (k + 1)) + 1 := by omega
      rw [hik, List.getElem?_cons_succ]
      exact h3

theorem findRecAux_of_mem (ev : String) : ∀ (l : List record) (k j : Nat) (rec : record),
    l[j]? = some rec → rec.name = ev →
    (∀ j' < j, ∀ r, l[j']? = some r → r.name ≠ ev) →
    findRecAux ev k l = some (k + j, rec)
  | [], k, j, rec => by simp
  | x :: xs, k, 0, rec => by
    intro hget hname _
    simp only [List.getElem?_cons_zero, Option.some.injEq] at hget
    subst hget
    rw [findRecAux, if_pos hname, Nat.add_zero]
  | x :: xs, k, j + 1, rec => by
    intro hget hname hfirst
    have hx : x.name ≠ ev := hfirst 0 (by omega) x (by simp)
    rw [findRecAux, if_neg hx]
    rw [findRecAux_of_mem ev xs (k + 1) j rec (by simpa using hget) hname
      (fun j' hj' r hr => hfirst (j' + 1) (by omega) r (by simpa using hr))]
    have hk : k + 1 + j = k + (j + 1) := by omega
    rw [hk]

theorem recordList.find_none_iff (r : recordList) (ev : String) :
    r.find ev = none ↔ ∀ rec ∈ r.list, rec.name ≠ ev :=
  findRecAux_eq_none_iff ev r.list 0

theorem recordList.find_some (r : recordList) (ev : String) (i : Nat) (rec : record)
    (h : r.find ev = some (i, rec)) :
    i < r.list.length ∧ r.list[i]? = some rec ∧ rec.name = ev := by
  obtain ⟨h1, h2, h3, h4⟩ := findRecAux_eq_some ev r.list 0 i rec h
  rw [Nat.sub_zero] at h2 h3
  exact ⟨h2, h3, h4⟩

theorem recordList.find_of_nodup (r : recordList) (i : Nat) (rec : record)
    (hnd : r.names.Nodup) (hget : r.list[i]? = some rec) :
    r.find rec.name = some (i, rec) := by
  have hi : i < r.list.length := by
    by_contra hge
    rw [List.getElem?_eq_none (le_of_not_lt hge)] at hget
    exact absurd hget.symm (Option.some_ne_none _)
  have hfirst : ∀ j' < i, ∀ rr, r.list[j']? = some rr → rr.name ≠ rec.name := by
    intro j' hj' rr hrr hname
    have h1 : (r.list.map record.name)[j']? = some rec.name := by
      rw [List.getElem?_map, hrr, Option.map_some', hname]
    have h2 : (r.list.map record.name)[i]? = some rec.name := by
      rw [List.getElem?_map, hget, Option.map_some']
    have hj'lt : j' < (r.list.map record.name).length := by
      rw [List.length_map]; omega
    have := List.getElem?_inj hj'lt hnd (h1.trans h2.symm)
    omega
  have := findRecAux_of_mem rec.name r.list 0 i rec hget rfl hfirst
  rw [recordList.find, this, Nat.zero_add]

theorem names_set_same (r : recordList) (i : Nat) (rec rec' : record)
    (hget : r.list[i]? = some rec) (hname : rec'.name = rec.name) :
    (recordList.mk (r.list.set i rec')).names = r.names := by
  have hi : i < r.list.length := by
    by_contra hge
    rw [List.getElem?_eq_none (le_of_not_lt hge)] at hget
    exact absurd hget.symm (Option.some_ne_none _)
  show (r.list.set i rec').map record.name = r.list.map record.name
  rw [List.map_set]
  have hilen : i < (r.list.map record.name).length := by
    rw [List.length_map]; exact hi
  have hgi : (r.list.map record.name)[i] = rec.name := by
    have h1 : (r.list.map record.name)[i]? = some rec.name := by
      rw [List.getElem?_map, hget, Option.map_some']
    have h2 := List.getElem?_eq_getElem (l := r.list.map record.name) (n := i) hilen
    rw [h1] at h2
    exact ((Option.some.injEq _ _).mp h2).symm
  rw [hname, ← hgi]
  exact set_self _ i hilen

theorem find_set_of_nodup (r : recordList) (i : Nat) (rec rec' : record)
    (hnd : r.names.Nodup) (hget : r.list[i]? = some rec) (hname : rec'.name = rec.name) :
    (recordList.mk (r.list.set i rec')).find rec.name = some (i, rec') := by
  have hi : i < r.list.length := by
    by_contra hge
    rw [List.getElem?_eq_none (le_of_not_lt hge)] at hget
    exact absurd hget.symm (Option.some_ne_none _)
  have hnd' : (recordList.mk (r.list.set i rec')).names.Nodup := by
    rw [names_set_same r i rec rec' hget hname]
    exact hnd
  have hget' : (r.list.set i rec')[i]? = some rec' := by
    rw [List.getElem?_set, if_pos rfl, if_pos hi]
  have := recordList.find_of_nodup ⟨r.list.set i rec'⟩ i rec' hnd' hget'
  rw [hname] at this
  exact this

theorem find_swapRemove_none (r : recordList) (i : Nat) (rec : record)
    (hnd : r.names.Nodup) (hget : r.list[i]? = some rec) :
    (recordList.mk (swapRemoveAt r.list i)).find rec.name = none := by
  have hi : i < r.list.length := by
    by_contra hge
    rw [List.getElem?_eq_none (le_of_not_lt hge)] at hget
    exact absurd hget.symm (Option.some_ne_none _)
  have hgmem : rec ∈ r.list := by
    have := List.getElem?_eq_getElem (l := r.list) (n := i) hi
    rw [hget] at this
    have heq : rec = r.list[i] := (Option.some.injEq _ _).mp this
    rw [heq]
    exact List.getElem_mem hi
  rw [recordList.find, findRecAux_eq_none_iff]
  intro rr hrr hname
  have hperm := swapRemoveAt_perm r.list i hi
  have hmem : rr ∈ r.list.eraseIdx i := hperm.mem_iff.mp hrr
  have hmemname : rec.name ∈ (r.list.eraseIdx i).map record.name :=
    List.mem_map.mpr ⟨rr, hmem, hname⟩
  have hilen : i < (r.list.map record.name).length := by
    rw [List.length_map]; exact hi
  have hcount : ((r.list.eraseIdx i).map record.name).count rec.name = 0 := by
    rw [map_eraseIdx_comm, count_eraseIdx _ i hilen]
    have hgi : (r.list.map record.name)[i] = rec.name := by
      have h1 : (r.list.map record.name)[i]? = some rec.name := by
        rw [List.getElem?_map, hget, Option.map_some']
      have h2 := List.getElem?_eq_getElem (l := r.list.map record.name) (n := i) hilen
      rw [h1] at h2
      exact ((Option.some.injEq _ _).mp h2).symm
    rw [if_pos hgi]
    have hone : (r.list.map record.name).count rec.name = 1 :=
      List.count_eq_one_of_mem hnd (List.mem_map.mpr ⟨rec, hgmem, rfl⟩)
    rw [hone]
  rw [← List.count_pos_iff, hcount] at hmemname
  exact absurd hmemname (lt_irrefl 0)

/-! ## Equation lemmas for Add / Remove -/

theorem Add_none (r : recordList) (ev : Event) (fn : Listener)
    (h : r.find ev.Name = none) :
    r.Add ev fn = (⟨r.list ++ [{ ev := ev, name := ev.Name, list := [fn] }]⟩, 1) := by
  rw [recordList.Add, h]

theorem Add_some (r : recordList) (ev : Event) (fn : Listener) (i : Nat) (rec : record)
    (h : r.find ev.Name = some (i, rec)) :
    r.Add ev fn
      = (⟨r.list.set i { rec with list := rec.list ++ [fn] }⟩, rec.list.length + 1) := by
  rw [recordList.Add, h]

theorem Remove_none (r : recordList) (ev : Event) (fn : Listener)
    (h : r.find ev.Name = none) :
    r.Remove ev fn = (r, 0) := by
  rw [recordList.Remove, h]

theorem Remove_some (r : recordList) (ev : Event) (fn : Listener) (i : Nat) (rec : record)
    (h : r.find ev.Name = some (i, rec)) :
    r.Remove ev fn =
      if (removeListener rec.list fn).length > 0 then
        (⟨r.list.set i { rec with list := removeListener rec.list fn }⟩,
         (removeListener rec.list fn).length)
      else (⟨swapRemoveAt r.list i⟩, 0) := by
  rw [recordList.Remove, h]

theorem find_append_of_none (r : recordList) (x : record) (h : r.find x.name = none) :
    (recordList.mk (r.list ++ [x])).find x.name = some (r.list.length, x) := by
  have hfirst : ∀ j' < r.list.length, ∀ rr, (r.list ++ [x])[j']? = some rr →
      rr.name ≠ x.name := by
    intro j' hj' rr hrr
    rw [List.getElem?_append, if_pos hj'] at hrr
    have hmem : rr ∈ r.list := by
      have h2 := List.getElem?_eq_getElem (l := r.list) (n := j') hj'
      rw [hrr] at h2
      have heq : rr = r.list.get ⟨j', hj'⟩ := (Option.some.injEq _ _).mp h2
      rw [heq]
      exact List.get_mem r.list j' hj'
    exact (recordList.find_none_iff r x.name).mp h rr hmem
  have := findRecAux_of_mem x.name (r.list ++ [x]) 0 r.list.length x
    (List.getElem?_concat_length r.list x) rfl hfirst
  rw [recordList.find, this, Nat.zero_add]

/-! ## The at-most-one-record-per-name invariant -/

theorem names_nodup_Add (r : recordList) (ev : Event) (fn : Listener)
    (hnd : r.names.Nodup) : ((r.Add ev fn).1).names.Nodup := by
  cases hf : r.find ev.Name with
  | none =>
    rw [Add_none r ev fn hf]
    show ((r.list ++ [({ ev := ev, name := ev.Name, list := [fn] } : record)]).map record.name).Nodup
    rw [List.map_append, List.nodup_append]
    refine ⟨hnd, List.nodup_singleton _, ?_⟩
    intro a ha hb
    rcases List.mem_map.mp ha with ⟨rec, hrec, rfl⟩
    simp only [List.map_cons, List.map_nil, List.mem_singleton] at hb
    exact (recordList.find_none_iff r ev.Name).mp hf rec hrec hb
  | some ir =>
    obtain ⟨i, rec⟩ := ir
    obtain ⟨hi, hget, hname⟩ := recordList.find_some r ev.Name i rec hf
    rw [Add_some r ev fn i rec hf]
    show ((recordList.mk (r.list.set i { rec with list := rec.list ++ [fn] })).names).Nodup
    rw [names_set_same r i rec { rec with list := rec.list ++ [fn] } hget rfl]
    exact hnd

theorem names_nodup_Remove (r : recordList) (ev : Event) (fn : Listener)
    (hnd : r.names.Nodup) : ((r.Remove ev fn).1).names.Nodup := by
  cases hf : r.find ev.Name with
  | none => rw [Remove_none r ev fn hf]; exact hnd
  | some ir =>
    obtain ⟨i, rec⟩ := ir
    obtain ⟨hi, hget, hname⟩ := recordList.find_some r ev.Name i rec hf
    rw [Remove_some r ev fn i rec hf]
    by_cases hlen : (removeListener rec.list fn).length > 0
    · rw [if_pos hlen]
      show ((recordList.mk (r.list.set i { rec with list := removeListener rec.list fn })).names).Nodup
      rw [names_set_same r i rec { rec with list := removeListener rec.list fn } hget rfl]
      exact hnd
    · rw [if_neg hlen]
      show ((swapRemoveAt r.list i).map record.name).Nodup
      have hperm := (swapRemoveAt_perm r.list i hi).map record.name
      refine hperm.nodup_iff.mpr ?_
      rw [map_eraseIdx_comm]
      exact (List.eraseIdx_sublist _ i).nodup hnd

theorem names_nodup_runRegOps (ops : List RegOp) : ∀ (r : recordList),
    r.names.Nodup → ((runRegOps r ops)).names.Nodup := by
  induction ops with
  | nil => intro r h; exact h
  | cons op ops ih =>
    intro r h
    rw [runRegOps, List.foldl_cons]
    refine ih (applyRegOp r op) ?_
    cases op with
    | add ev fn => exact names_nodup_Add r ev fn h
    | remove ev fn => exact names_nodup_Remove r ev fn h

/-! ## Emitter equations and remaining helpers -/

theorem Subscribe_eq (p : PubsubEmitter) (ev : Event) (l : Listener) :
    p.Subscribe ev l
      = ({ subs := fun k => if k = ev.Type then ((p.subs ev.Type).Add ev l).1 else p.subs k },
         if ((p.subs ev.Type).Add ev l).2 = 1
         then [{ command := ev.Type.SubCommand, args := [ev.Name] }] else []) := rfl

theorem Unsubscribe_eq (p : PubsubEmitter) (ev : Event) (l : Listener) :
    p.Unsubscribe ev l
      = ({ subs := fun k => if k = ev.Type then ((p.subs ev.Type).Remove ev l).1 else p.subs k },
         if ((p.subs ev.Type).Remove ev l).2 = 0
         then [{ command := ev.Type.UnsubCommand, args := [ev.Name] }] else []) := rfl

theorem removeListener_single (fn : Listener) : removeListener [fn] fn = [] := by
  rw [removeListener, List.findIdx?_cons, if_pos (by simp)]
  rfl

theorem removeListener_pair (fn : Listener) : removeListener [fn, fn] fn = [fn] := by
  rw [removeListener, List.findIdx?_cons, if_pos (by simp)]
  rfl

theorem findFieldAux_eq_find? (a : String) : ∀ (fs : List Field),
    findFieldAux a fs
      = (fs.find? (fun f => f.aliasStr = a)).getD { valid := false, aliasStr := "", value := "" }
  | [] => rfl
  | f :: fs => by
    rw [findFieldAux, List.find?_cons]
    by_cases hf : f.aliasStr = a
    · simp [hf]
    · simp only [hf, decide_False, if_false]
      rw [findFieldAux_eq_find? a fs]

theorem findFieldAux_alias (a : String) : ∀ (fs : List Field),
    (findFieldAux a fs).aliasStr = a
      ∨ findFieldAux a fs = { valid := false, aliasStr := "", value := "" }
  | [] => Or.inr rfl
  | f :: fs => by
    rw [findFieldAux]
    by_cases hf : f.aliasStr = a
    · rw [if_pos hf]; exact Or.inl hf
    · rw [if_neg hf]; exact findFieldAux_alias a fs

theorem foldl_append_strings : ∀ (l : List String) (s : String),
    l.foldl (· ++ ·) s = s ++ l.foldr (· ++ ·) ""
  | [], s => by
    rw [List.foldl_nil, List.foldr_nil, String.append_empty]
  | x :: xs, s => by
    rw [List.foldl_cons, foldl_append_strings xs (s ++ x), List.foldr_cons,
        String.append_assoc]

theorem count_cmd_map (verb : String) (l : List record) (name : String) :
    ((l.map (fun r => ({ command := verb, args := [r.name] } : command))).count
        { command := verb, args := [name] })
      = (l.map record.name).count name := by
  induction l with
  | nil => rfl
  | cons x xs ih =>
    rw [List.map_cons, List.count_cons, List.map_cons, List.count_cons, ih]
    congr 1
    by_cases hx : x.name = name
    · simp [hx]
    · simp [hx]

theorem count_cmd_map_ne (verb verb' : String) (h : verb ≠ verb') (l : List record)
    (name : String) :
    ((l.map (fun r => ({ command := verb, args := [r.name] } : command))).count
        { command := verb', args := [name] }) = 0 := by
  rw [List.count_eq_zero]
  intro hmem
  rcases List.mem_map.mp hmem with ⟨r, _, heq⟩
  exact h (congrArg command.command heq)

/-! ## Claim theorems -/

/-- C4: in every registry state reachable from the empty `recordList` by
any sequence of `Add` and `Remove` operations, there is at most one record
per event name (the list of record names is duplicate-free). -/
theorem C4_at_most_one_record_per_name (ops : List RegOp) :
    ((runRegOps ⟨[]⟩ ops).names).Nodup :=
  names_nodup_runRegOps ops ⟨[]⟩ List.nodup_nil

/-- C5: for any Event constructed from fields `[f0, …, fn]`, `Name()` is the
in-order concatenation of the fields' value strings and `Len()` is `n+1`
(the number of fields). -/
theorem C5_name_is_concat_and_len (fs : List Field) (k : EventType) :
    (Event.mk fs k).Name = fs.foldr (fun f acc => f.value ++ acc) ""
      ∧ (Event.mk fs k).Len = fs.length := by
  constructor
  · show (fs.map Field.value).foldl (· ++ ·) "" = _
    rw [foldl_append_strings, String.empty_append, List.foldr_map]
  · rfl

/-- C6 (code bug): `Get(i)` on the 1-field event `NewEvent("foo")` behaves
as specified for `i = 0` (the original field) and `i = 1` (absent), but at
the negative index `-1` the Go guard `len(e.fields) <= i` does not fire and
the index expression `e.fields[i]` panics at runtime (embedded as `none`)
instead of returning an absent Field. -/
theorem C6_get_negative_panics :
    (NewEvent "foo" []).Get (-1) = none
  ∧ (NewEvent "foo" []).Get 0 = some (StringF "foo")
  ∧ ((NewEvent "foo" []).Get 1).map Field.IsZero = some true := by
  decide

/-- C7 (counterexample): the base field of `NewEvent("foo")` was never given
an alias via `As`, yet `Find("")` returns exactly that field (not an absent
one), because unaliased fields carry the empty alias and `Find` compares
aliases for plain equality. -/
theorem C7_cex_unaliased_matches_empty_lookup :
    (NewEvent "foo" []).Find "" = StringF "foo"
  ∧ ((NewEvent "foo" []).Find "").IsZero = false := by
  decide

/-- C7 (amended): `Find(a)` returns the first field whose alias equals `a`,
else an absent Field; the returned field, when present, always carries
alias `a`, so a field never aliased via `As` (alias `""`) can only ever be
returned by the empty-string lookup `Find("")`. -/
theorem C7_find_first_alias_match :
    (∀ (e : Event) (a : String),
        e.Find a = ((e.fields.find? (fun f => f.aliasStr = a)).getD
          { valid := false, aliasStr := "", value := "" }))
  ∧ (∀ (e : Event) (a : String),
        (e.Find a).aliasStr = a
          ∨ e.Find a = { valid := false, aliasStr := "", value := "" }) := by
  constructor
  · intro e a
    exact findFieldAux_eq_find? a e.fields
  · intro e a
    exact findFieldAux_alias a e.fields

/-- C9: an Unsubscribe for an event whose name has no record in its
registry still enqueues exactly one unsubscribe command (Remove returns 0
when the name is absent), and the registries are left unchanged. -/
theorem C9_unsubscribe_absent_name (p : PubsubEmitter) (ev : Event) (l : Listener)
    (h : (p.subs ev.Type).find ev.Name = none) :
    (p.Unsubscribe ev l).2 = [{ command := ev.Type.UnsubCommand, args := [ev.Name] }]
      ∧ ((p.Unsubscribe ev l).1).subs = p.subs := by
  constructor
  · rw [Unsubscribe_eq]
    show (if ((p.subs ev.Type).Remove ev l).2 = 0
        then [({ command := ev.Type.UnsubCommand, args := [ev.Name] } : command)] else [])
      = [({ command := ev.Type.UnsubCommand, args := [ev.Name] } : command)]
    rw [Remove_none _ _ _ h]
    simp
  · rw [Unsubscribe_eq]
    show (fun k => if k = ev.Type then ((p.subs ev.Type).Remove ev l).1 else p.subs k)
      = p.subs
    funext k
    by_cases hk : k = ev.Type
    · rw [if_pos hk, Remove_none _ _ _ h, hk]
    · rw [if_neg hk]

/-- C9 witness: unsubscribing a never-subscribed name on the fresh emitter. -/
theorem C9_witness :
    (NewPubsubEmitter.Unsubscribe (NewEvent "foo" []) 3).2
        = [{ command := "UNSUBSCRIBE", args := ["foo"] }]
      ∧ ((NewPubsubEmitter.Unsubscribe (NewEvent "foo" []) 3).1).subs
        = NewPubsubEmitter.subs := by
  have h := C9_unsubscribe_absent_name NewPubsubEmitter (NewEvent "foo" []) 3 (by decide)
  exact ⟨h.1.trans (by decide), h.2⟩

/-- C3: registry behavior: `Add` on an absent name returns 1 and creates
the record; `Add` on a present name returns the incremented listener count;
`Remove` of the sole listener returns 0 and deletes the record, so a
subsequent `Add` for the same name returns 1 again; `Remove` of an absent
name returns 0 and leaves the registry unchanged. -/
theorem C3_registry_add_remove :
    (∀ (r : recordList) (ev : Event) (fn : Listener), r.find ev.Name = none →
        (r.Add ev fn).2 = 1
      ∧ ((r.Add ev fn).1).find ev.Name
          = some (r.list.length, { ev := ev, name := ev.Name, list := [fn] }))
  ∧ (∀ (r : recordList) (ev : Event) (fn : Listener) (i : Nat) (rec : record),
        r.find ev.Name = some (i, rec) → (r.Add ev fn).2 = rec.list.length + 1)
  ∧ (∀ (r : recordList) (ev : Event) (fn fn' : Listener) (i : Nat) (rec : record),
        r.names.Nodup → r.find ev.Name = some (i, rec) → rec.list = [fn] →
        (r.Remove ev fn).2 = 0
      ∧ ((r.Remove ev fn).1).find ev.Name = none
      ∧ (((r.Remove ev fn).1).Add ev fn').2 = 1)
  ∧ (∀ (r : recordList) (ev : Event) (fn : Listener), r.find ev.Name = none →
        r.Remove ev fn = (r, 0)) := by
  refine ⟨?_, ?_, ?_, ?_⟩
  · intro r ev fn h
    rw [Add_none r ev fn h]
    exact ⟨rfl, find_append_of_none r _ h⟩
  · intro r ev fn i rec h
    rw [Add_some r ev fn i rec h]
  · intro r ev fn fn' i rec hnd hfind hlist
    obtain ⟨hi, hget, hname⟩ := recordList.find_some r ev.Name i rec hfind
    have hrem : removeListener rec.list fn = [] := by
      rw [hlist]; exact removeListener_single fn
    have hR := Remove_some r ev fn i rec hfind
    rw [hrem, if_neg (by simp)] at hR
    have hfind2 : ((⟨swapRemoveAt r.list i⟩ : recordList)).find ev.Name = none := by
      have hs := find_swapRemove_none r i rec hnd hget
      rw [hname] at hs
      exact hs
    refine ⟨by rw [hR], by rw [hR]; exact hfind2, ?_⟩
    rw [hR]
    show ((⟨swapRemoveAt r.list i⟩ : recordList).Add ev fn').2 = 1
    rw [Add_none _ _ _ hfind2]
  · intro r ev fn h
    exact Remove_none r ev fn h

/-- C3 witness: a concrete add/add/remove/add trace on the name `foo`. -/
theorem C3_witness :
    ((⟨[]⟩ : recordList).Add (NewEvent "foo" []) 1).2 = 1
  ∧ (((⟨[]⟩ : recordList).Add (NewEvent "foo" []) 1).1).find (NewEvent "foo" []).Name
      = some (0, { ev := NewEvent "foo" [], name := (NewEvent "foo" []).Name, list := [1] })
  ∧ ((⟨[{ ev := NewEvent "foo" [], name := (NewEvent "foo" []).Name, list := [1, 2] }]⟩
        : recordList).Add (NewEvent "foo" []) 3).2 = 3
  ∧ ((⟨[{ ev := NewEvent "foo" [], name := (NewEvent "foo" []).Name, list := [1] }]⟩
        : recordList).Remove (NewEvent "foo" []) 1).2 = 0
  ∧ (((⟨[{ ev := NewEvent "foo" [], name := (NewEvent "foo" []).Name, list := [1] }]⟩
        : recordList).Remove (NewEvent "foo" []) 1).1).find (NewEvent "foo" []).Name = none
  ∧ ((((⟨[{ ev := NewEvent "foo" [], name := (NewEvent "foo" []).Name, list := [1] }]⟩
        : recordList).Remove (NewEvent "foo" []) 1).1).Add (NewEvent "foo" []) 2).2 = 1
  ∧ (⟨[]⟩ : recordList).Remove (NewEvent "foo" []) 9 = (⟨[]⟩, 0) := by
  have h1 := C3_registry_add_remove.1 ⟨[]⟩ (NewEvent "foo" []) 1 (by decide)
  have h2 := C3_registry_add_remove.2.1
    ⟨[{ ev := NewEvent "foo" [], name := (NewEvent "foo" []).Name, list := [1, 2] }]⟩
    (NewEvent "foo" []) 3 0
    { ev := NewEvent "foo" [], name := (NewEvent "foo" []).Name, list := [1, 2] }
    (by decide)
  have h3 := C3_registry_add_remove.2.2.1
    ⟨[{ ev := NewEvent "foo" [], name := (NewEvent "foo" []).Name, list := [1] }]⟩
    (NewEvent "foo" []) 1 2 0
    { ev := NewEvent "foo" [], name := (NewEvent "foo" []).Name, list := [1] }
    (by decide) (by decide) rfl
  have h4 := C3_registry_add_remove.2.2.2 ⟨[]⟩ (NewEvent "foo" []) 9 (by decide)
  exact ⟨h1.1, h1.2, h2, h3.1, h3.2.1, h3.2.2, h4⟩

/-- C1: a Subscribe enqueues exactly one subscribe command (with the
event's verb and `Name()`) iff the name had no record; an Unsubscribe
enqueues exactly one unsubscribe command iff it empties the record's
listener list; every other Subscribe/Unsubscribe enqueues nothing. -/
theorem C1_subscribe_unsubscribe_commands :
    (∀ (p : PubsubEmitter) (ev : Event) (l : Listener),
        (p.subs ev.Type).find ev.Name = none →
        (p.Subscribe ev l).2 = [{ command := ev.Type.SubCommand, args := [ev.Name] }])
  ∧ (∀ (p : PubsubEmitter) (ev : Event) (l : Listener) (i : Nat) (rec : record),
        (p.subs ev.Type).find ev.Name = some (i, rec) → rec.list ≠ [] →
        (p.Subscribe ev l).2 = [])
  ∧ (∀ (p : PubsubEmitter) (ev : Event) (l : Listener) (i : Nat) (rec : record),
        (p.subs ev.Type).find ev.Name = some (i, rec) → rec.list = [l] →
        (p.Unsubscribe ev l).2 = [{ command := ev.Type.UnsubCommand, args := [ev.Name] }])
  ∧ (∀ (p : PubsubEmitter) (ev : Event) (l : Listener) (i : Nat) (rec : record),
        (p.subs ev.Type).find ev.Name = some (i, rec) → removeListener rec.list l ≠ [] →
        (p.Unsubscribe ev l).2 = []) := by
  refine ⟨?_, ?_, ?_, ?_⟩
  · intro p ev l h
    rw [Subscribe_eq]
    show (if ((p.subs ev.Type).Add ev l).2 = 1
        then [({ command := ev.Type.SubCommand, args := [ev.Name] } : command)] else [])
      = [({ command := ev.Type.SubCommand, args := [ev.Name] } : command)]
    rw [Add_none _ _ _ h]
    simp
  · intro p ev l i rec h hne
    have hc : ¬(((p.subs ev.Type).Add ev l).2 = 1) := by
      rw [Add_some _ _ _ i rec h]
      show ¬(rec.list.length + 1 = 1)
      intro hc
      exact hne (List.length_eq_zero.mp (by omega))
    rw [Subscribe_eq]
    show (if ((p.subs ev.Type).Add ev l).2 = 1
        then [({ command := ev.Type.SubCommand, args := [ev.Name] } : command)] else []) = []
    rw [if_neg hc]
  · intro p ev l i rec h hlist
    have hc : ((p.subs ev.Type).Remove ev l).2 = 0 := by
      rw [Remove_some _ _ _ i rec h, hlist, removeListener_single, if_neg (by simp)]
    rw [Unsubscribe_eq]
    show (if ((p.subs ev.Type).Remove ev l).2 = 0
        then [({ command := ev.Type.UnsubCommand, args := [ev.Name] } : command)] else [])
      = [({ command := ev.Type.UnsubCommand, args := [ev.Name] } : command)]
    rw [if_pos hc]
  · intro p ev l i rec h hne
    have hlen : (removeListener rec.list l).length ≠ 0 := by
      intro h0
      exact hne (List.length_eq_zero.mp h0)
    have hc : ¬(((p.subs ev.Type).Remove ev l).2 = 0) := by
      rw [Remove_some _ _ _ i rec h, if_pos (Nat.pos_of_ne_zero hlen)]
      show ¬((removeListener rec.list l).length = 0)
      exact hlen
    rw [Unsubscribe_eq]
    show (if ((p.subs ev.Type).Remove ev l).2 = 0
        then [({ command := ev.Type.UnsubCommand, args := [ev.Name] } : command)] else []) = []
    rw [if_neg hc]

/-- C1 witness: subscribe twice and unsubscribe on the name `foo`,
observing exactly the first subscribe command and the emptying unsubscribe
command. -/
theorem C1_witness :
    (NewPubsubEmitter.Subscribe (NewEvent "foo" []) 1).2
        = [{ command := "SUBSCRIBE", args := ["foo"] }]
  ∧ (((NewPubsubEmitter.Subscribe (NewEvent "foo" []) 1).1).Subscribe
        (NewEvent "foo" []) 2).2 = []
  ∧ (((NewPubsubEmitter.Subscribe (NewEvent "foo" []) 1).1).Unsubscribe
        (NewEvent "foo" []) 1).2 = [{ command := "UNSUBSCRIBE", args := ["foo"] }]
  ∧ (((((NewPubsubEmitter.Subscribe (NewEvent "foo" []) 1).1).Subscribe
        (NewEvent "foo" []) 2).1).Unsubscribe (NewEvent "foo" []) 1).2 = [] := by
  refine ⟨?_, ?_, ?_, ?_⟩
  · exact (C1_subscribe_unsubscribe_commands.1 NewPubsubEmitter (NewEvent "foo" []) 1
      (by decide)).trans (by decide)
  · exact C1_subscribe_unsubscribe_commands.2.1
      (NewPubsubEmitter.Subscribe (NewEvent "foo" []) 1).1 (NewEvent "foo" []) 2 0
      { ev := NewEvent "foo" [], name := (NewEvent "foo" []).Name, list := [1] }
      (by decide) (by decide)
  · exact (C1_subscribe_unsubscribe_commands.2.2.1
      (NewPubsubEmitter.Subscribe (NewEvent "foo" []) 1).1 (NewEvent "foo" []) 1 0
      { ev := NewEvent "foo" [], name := (NewEvent "foo" []).Name, list := [1] }
      (by decide) (by decide)).trans (by decide)
  · exact C1_subscribe_unsubscribe_commands.2.2.2
      ((NewPubsubEmitter.Subscribe (NewEvent "foo" []) 1).1.Subscribe
        (NewEvent "foo" []) 2).1 (NewEvent "foo" []) 1 0
      { ev := NewEvent "foo" [], name := (NewEvent "foo" []).Name, list := [1, 2] }
      (by decide) (by decide)

/-- C2: resubscribe returns the registries untouched (no listener added or
removed) and enqueues only subscribe commands built from a registry's verb
and a record's stored name; the number of commands equals the total number
of records; and, for a registry with duplicate-free names, exactly one
command is enqueued per name it holds (one per distinct name, regardless
of how many listeners that name has). -/
theorem C2_resubscribe_one_command_per_name :
    (∀ (p : PubsubEmitter) (pending : List command), (p.resubscribe pending).1 = p)
  ∧ (∀ (p : PubsubEmitter) (pending : List command) (c : command),
        c ∈ (p.resubscribe pending).2 →
        ∃ t r, r ∈ (p.subs t).list
          ∧ c = { command := EventType.SubCommand t, args := [r.name] })
  ∧ (∀ (p : PubsubEmitter) (pending : List command),
        ((p.resubscribe pending).2).length
          = (p.subs EventType.PlainEvent).list.length
            + (p.subs EventType.PatternEvent).list.length)
  ∧ (∀ (p : PubsubEmitter) (pending : List command) (t : EventType) (name : String),
        ((p.subs t).names).Nodup →
        ((p.resubscribe pending).2).count { command := t.SubCommand, args := [name] }
          = if name ∈ (p.subs t).names then 1 else 0) := by
  refine ⟨fun p pending => rfl, ?_, ?_, ?_⟩
  · intro p pending c hc
    rcases List.mem_append.mp hc with h | h
    · rcases List.mem_map.mp h with ⟨r, hr, rfl⟩
      exact ⟨.PlainEvent, r, hr, rfl⟩
    · rcases List.mem_map.mp h with ⟨r, hr, rfl⟩
      exact ⟨.PatternEvent, r, hr, rfl⟩
  · intro p pending
    show (((p.subs EventType.PlainEvent).list.map
          (fun r => ({ command := EventType.PlainEvent.SubCommand, args := [r.name] } : command)))
        ++ ((p.subs EventType.PatternEvent).list.map
          (fun r => ({ command := EventType.PatternEvent.SubCommand, args := [r.name] } : command)))).length
      = (p.subs EventType.PlainEvent).list.length + (p.subs EventType.PatternEvent).list.length
    rw [List.length_append, List.length_map, List.length_map]
  · intro p pending t name hnd
    show (((p.subs EventType.PlainEvent).list.map
          (fun r => ({ command := EventType.PlainEvent.SubCommand, args := [r.name] } : command)))
        ++ ((p.subs EventType.PatternEvent).list.map
          (fun r => ({ command := EventType.PatternEvent.SubCommand, args := [r.name] } : command)))).count
        { command := t.SubCommand, args := [name] }
      = if name ∈ (p.subs t).names then 1 else 0
    rw [List.count_append]
    cases t with
    | PlainEvent =>
      rw [count_cmd_map EventType.PlainEvent.SubCommand _ name,
          count_cmd_map_ne EventType.PatternEvent.SubCommand EventType.PlainEvent.SubCommand
            (by decide) _ name,
          Nat.add_zero]
      show ((p.subs EventType.PlainEvent).names).count name = _
      by_cases hm : name ∈ (p.subs EventType.PlainEvent).names
      · rw [if_pos hm]
        exact List.count_eq_one_of_mem hnd hm
      · rw [if_neg hm]
        exact List.count_eq_zero.mpr hm
    | PatternEvent =>
      rw [count_cmd_map EventType.PatternEvent.SubCommand _ name,
          count_cmd_map_ne EventType.PlainEvent.SubCommand EventType.PatternEvent.SubCommand
            (by decide) _ name,
          Nat.zero_add]
      show ((p.subs EventType.PatternEvent).names).count name = _
      by_cases hm : name ∈ (p.subs EventType.PatternEvent).names
      · rw [if_pos hm]
        exact List.count_eq_one_of_mem hnd hm
      · rw [if_neg hm]
        exact List.count_eq_zero.mpr hm

/-- C2 witness: an emitter with one plain name (two listeners) and one
pattern name; resubscribe keeps the state and emits one command per name. -/
theorem C2_witness :
    (({ subs := fun k => if k = EventType.PlainEvent
          then ⟨[{ ev := NewEvent "foo" [], name := "foo", list := [1, 2] }]⟩
          else ⟨[{ ev := NewPatternEvent "chan:" [Star], name := "chan:*", list := [3] }]⟩ }
        : PubsubEmitter).resubscribe [{ command := "SUBSCRIBE", args := ["stale"] }]).1
      = ({ subs := fun k => if k = EventType.PlainEvent
          then ⟨[{ ev := NewEvent "foo" [], name := "foo", list := [1, 2] }]⟩
          else ⟨[{ ev := NewPatternEvent "chan:" [Star], name := "chan:*", list := [3] }]⟩ }
        : PubsubEmitter)
  ∧ (({ subs := fun k => if k = EventType.PlainEvent
          then ⟨[{ ev := NewEvent "foo" [], name := "foo", list := [1, 2] }]⟩
          else ⟨[{ ev := NewPatternEvent "chan:" [Star], name := "chan:*", list := [3] }]⟩ }
        : PubsubEmitter).resubscribe [{ command := "SUBSCRIBE", args := ["stale"] }]).2.length = 2
  ∧ (({ subs := fun k => if k = EventType.PlainEvent
          then ⟨[{ ev := NewEvent "foo" [], name := "foo", list := [1, 2] }]⟩
          else ⟨[{ ev := NewPatternEvent "chan:" [Star], name := "chan:*", list := [3] }]⟩ }
        : PubsubEmitter).resubscribe [{ command := "SUBSCRIBE", args := ["stale"] }]).2.count
        { command := "SUBSCRIBE", args := ["foo"] } = 1 := by
  refine ⟨?_, ?_, ?_⟩
  · exact C2_resubscribe_one_command_per_name.1 _ _
  · exact (C2_resubscribe_one_command_per_name.2.2.1 _ _).trans (by decide)
  · exact (C2_resubscribe_one_command_per_name.2.2.2
      { subs := fun k => if k = EventType.PlainEvent
          then ⟨[{ ev := NewEvent "foo" [], name := "foo", list := [1, 2] }]⟩
          else ⟨[{ ev := NewPatternEvent "chan:" [Star], name := "chan:*", list := [3] }]⟩ }
      [{ command := "SUBSCRIBE", args := ["stale"] }]
      EventType.PlainEvent "foo" (by decide)).trans (by decide)

/-- C10: a single Remove deletes exactly one occurrence of the listener
(and nothing when the listener is absent); when the same listener was
added twice under one name, the first Remove returns 1, keeps the record
(one occurrence left, so the listener is still invoked by `Emit` on a
matching message, and no unsubscribe would be issued since the count is
nonzero), and a second Remove is needed to empty and delete the record. -/
theorem C10_remove_deletes_one_occurrence :
    (∀ (l : List Listener) (fn : Listener), fn ∈ l →
        (removeListener l fn).length = l.length - 1
      ∧ (removeListener l fn).count fn = l.count fn - 1
      ∧ ∀ g, g ≠ fn → (removeListener l fn).count g = l.count g)
  ∧ (∀ (l : List Listener) (fn : Listener), fn ∉ l → removeListener l fn = l)
  ∧ (∀ (r : recordList) (ev : Event) (fn : Listener) (i : Nat) (rec : record)
        (b : List Nat),
        r.names.Nodup → r.find ev.Name = some (i, rec) → rec.list = [fn, fn] →
        (r.Remove ev fn).2 = 1
      ∧ ((r.Remove ev fn).1).find ev.Name = some (i, { rec with list := [fn] })
      ∧ (fn, ev, b) ∈ (((r.Remove ev fn).1).FindCopy ev.Name).Emit ev b
      ∧ (((r.Remove ev fn).1).Remove ev fn).2 = 0
      ∧ ((((r.Remove ev fn).1).Remove ev fn).1).find ev.Name = none) := by
  refine ⟨?_, ?_, ?_⟩
  · intro l fn h
    refine ⟨removeListener_length l fn h, ?_, ?_⟩
    · rw [removeListener_count l fn fn, if_pos ⟨h, rfl⟩]
    · intro g hg
      rw [removeListener_count l fn g, if_neg (by tauto)]
  · intro l fn h
    exact removeListener_eq_of_not_mem l fn h
  · intro r ev fn i rec b hnd hfind hlist
    obtain ⟨hi, hget, hname⟩ := recordList.find_some r ev.Name i rec hfind
    have hrem : removeListener rec.list fn = [fn] := by
      rw [hlist]; exact removeListener_pair fn
    have hR := Remove_some r ev fn i rec hfind
    rw [hrem, if_pos (by simp)] at hR
    have hfind1 : ((⟨r.list.set i { rec with list := [fn] }⟩ : recordList)).find ev.Name
        = some (i, { rec with list := [fn] }) := by
      rw [← hname]
      exact find_set_of_nodup r i rec { rec with list := [fn] } hnd hget rfl
    have hnd1 : ((⟨r.list.set i { rec with list := [fn] }⟩ : recordList)).names.Nodup := by
      rw [names_set_same r i rec { rec with list := [fn] } hget rfl]
      exact hnd
    have hget1 : (r.list.set i { rec with list := [fn] })[i]?
        = some { rec with list := [fn] } := by
      rw [List.getElem?_set, if_pos rfl, if_pos hi]
    have hR2 := Remove_some (⟨r.list.set i { rec with list := [fn] }⟩ : recordList) ev fn i
      { rec with list := [fn] } hfind1
    have hproj : ({ rec with list := [fn] } : record).list = [fn] := rfl
    rw [hproj, removeListener_single, if_neg (by simp)] at hR2
    have hfind2 : ((⟨swapRemoveAt (r.list.set i { rec with list := [fn] }) i⟩
        : recordList)).find ev.Name = none := by
      rw [← hname]
      exact find_swapRemove_none (⟨r.list.set i { rec with list := [fn] }⟩ : recordList)
        i { rec with list := [fn] } hnd1 hget1
    refine ⟨by rw [hR]; rfl, by rw [hR]; exact hfind1, ?_, ?_, ?_⟩
    · rw [hR]
      show (fn, ev, b) ∈ ((⟨r.list.set i { rec with list := [fn] }⟩
        : recordList).FindCopy ev.Name).Emit ev b
      rw [recordList.FindCopy, hfind1]
      show (fn, ev, b) ∈ [fn].map (fun l => (l, ev, b))
      simp
    · rw [hR]
      show ((⟨r.list.set i { rec with list := [fn] }⟩ : recordList).Remove ev fn).2 = 0
      rw [hR2]
    · rw [hR]
      show (((⟨r.list.set i { rec with list := [fn] }⟩ : recordList).Remove ev fn).1).find
        ev.Name = none
      rw [hR2]
      exact hfind2

/-- C10 witness: the same listener subscribed twice under `foo`; the first
Remove leaves one registered occurrence that is still emitted to, and a
second Remove empties and deletes the record. -/
theorem C10_witness :
    (removeListener [7, 7] 7).length = 1
  ∧ ((⟨[{ ev := NewEvent "foo" [], name := (NewEvent "foo" []).Name, list := [7, 7] }]⟩
      : recordList).Remove (NewEvent "foo" []) 7).2 = 1
  ∧ (7, NewEvent "foo" [], [42]) ∈
      ((((⟨[{ ev := NewEvent "foo" [], name := (NewEvent "foo" []).Name, list := [7, 7] }]⟩
        : recordList).Remove (NewEvent "foo" []) 7).1).FindCopy
          (NewEvent "foo" []).Name).Emit (NewEvent "foo" []) [42]
  ∧ ((((⟨[{ ev := NewEvent "foo" [], name := (NewEvent "foo" []).Name, list := [7, 7] }]⟩
      : recordList).Remove (NewEvent "foo" []) 7).1).Remove (NewEvent "foo" []) 7).2 = 0 := by
  have h := C10_remove_deletes_one_occurrence.2.2
    ⟨[{ ev := NewEvent "foo" [], name := (NewEvent "foo" []).Name, list := [7, 7] }]⟩
    (NewEvent "foo" []) 7 0
    { ev := NewEvent "foo" [], name := (NewEvent "foo" []).Name, list := [7, 7] }
    [42] (by decide) (by decide) rfl
  have h0 := C10_remove_deletes_one_occurrence.1 [7, 7] 7 (by decide)
  exact ⟨h0.1, h.1, h.2.2.1, h.2.2.2.1⟩

theorem goParseInt_none (s : String) (h : parseDec? s = none) (bitSize : Nat) :
    goParseInt s bitSize = (0, some .invalidNum) := by
  rw [goParseInt, h]

/-- C8 (counterexample): `Field.Int` parses with bit size 32, so for the
64-bit-in-range value 2147483648 = 2^31 the accessor `Int(2147483648).Int()`
returns the clamped value 2147483647 together with a range error rather
than `(2147483648, nil)` — and the error is a range error on a perfectly
numeric value, not a syntax error. -/
theorem C8_cex_int_is_32_bit :
    (IntF 2147483648).Int = (2147483647, some ParseErr.outOfRange)
  ∧ (IntF 2147483648).Int ≠ (2147483648, none) := by
  decide

theorem goParseInt_snd_none_iff (s : String) (bitSize : Nat) :
    (goParseInt s bitSize).2 = none ↔
      ∃ v, parseDec? s = some v
        ∧ -(2 ^ (bitSize - 1) : Int) ≤ v ∧ v ≤ 2 ^ (bitSize - 1) - 1 := by
  cases hv : parseDec? s with
  | none =>
    rw [goParseInt_none s hv bitSize]
    simp
  | some v =>
    rw [goParseInt_some s v hv bitSize]
    by_cases h1 : v > 2 ^ (bitSize - 1) - 1
    · rw [if_pos h1]
      constructor
      · intro hc
        exact absurd hc (by simp)
      · rintro ⟨v', hv', ha, hb⟩
        have hvv : v = v' := (Option.some.injEq _ _).mp hv'
        subst hvv
        exact absurd hb (not_le.mpr h1)
    · rw [if_neg h1]
      by_cases h2 : v < -(2 ^ (bitSize - 1) : Int)
      · rw [if_pos h2]
        constructor
        · intro hc
          exact absurd hc (by simp)
        · rintro ⟨v', hv', ha, hb⟩
          have hvv : v = v' := (Option.some.injEq _ _).mp hv'
          subst hvv
          exact absurd ha (not_le.mpr h2)
      · rw [if_neg h2]
        constructor
        · intro _
          exact ⟨v, rfl, not_lt.mp h2, not_lt.mp h1⟩
        · intro _
          rfl

theorem goParseInt_snd_invalid_iff (s : String) (bitSize : Nat) :
    (goParseInt s bitSize).2 = some ParseErr.invalidNum ↔ parseDec? s = none := by
  cases hv : parseDec? s with
  | none =>
    rw [goParseInt_none s hv bitSize]
    simp
  | some v =>
    rw [goParseInt_some s v hv bitSize]
    constructor
    · intro hc
      by_cases h1 : v > 2 ^ (bitSize - 1) - 1
      · rw [if_pos h1] at hc
        exact absurd hc (by simp)
      · rw [if_neg h1] at hc
        by_cases h2 : v < -(2 ^ (bitSize - 1) : Int)
        · rw [if_pos h2] at hc
          exact absurd hc (by simp)
        · rw [if_neg h2] at hc
          exact absurd hc (by simp)
    · intro hc
      exact absurd hc (by simp)

theorem goParseUint_nosign_none (s : String) (c : Char) (cs : List Char)
    (h : s.data = c :: cs) (hc : ¬(c = '-' ∨ c = '+')) (hn : parseNat? (c :: cs) = none)
    (bitSize : Nat) :
    goParseUint s bitSize = (0, some .invalidNum) := by
  rw [goParseUint_data s c cs h bitSize, if_neg hc, hn]

theorem goParseUint_sign_invalid (s : String) (c : Char) (cs : List Char)
    (h : s.data = c :: cs) (hsign : c = '-' ∨ c = '+') (bitSize : Nat) :
    goParseUint s bitSize = (0, some .invalidNum) := by
  rw [goParseUint_data s c cs h bitSize, if_pos hsign]

theorem goParseUint_snd_none_iff (s : String) (bitSize : Nat) :
    (goParseUint s bitSize).2 = none ↔
      ∃ c cs n, s.data = c :: cs ∧ c ≠ '-' ∧ c ≠ '+'
        ∧ parseNat? (c :: cs) = some n ∧ n ≤ 2 ^ bitSize - 1 := by
  cases hd : s.data with
  | nil =>
    rw [goParseUint, hd]
    simp
  | cons c cs =>
    by_cases hsign : c = '-' ∨ c = '+'
    · rw [goParseUint_sign_invalid s c cs hd hsign bitSize]
      constructor
      · intro hc
        exact absurd hc (by simp)
      · rintro ⟨c', cs', n, hd', hc1, hc2, _, _⟩
        injection hd' with h1 h2
        subst h1
        rcases hsign with h | h
        · exact (hc1 h).elim
        · exact (hc2 h).elim
    · cases hn : parseNat? (c :: cs) with
      | none =>
        rw [goParseUint_nosign_none s c cs hd hsign hn bitSize]
        constructor
        · intro hc
          exact absurd hc (by simp)
        · rintro ⟨c', cs', n, hd', _, _, hn', _⟩
          injection hd' with h1 h2
          subst h1
          subst h2
          rw [hn] at hn'
          exact absurd hn' (by simp)
      | some n =>
        rw [goParseUint_some s c cs hd hsign n hn bitSize]
        by_cases hr : n > 2 ^ bitSize - 1
        · rw [if_pos hr]
          constructor
          · intro hc
            exact absurd hc (by simp)
          · rintro ⟨c', cs', n', hd', _, _, hn', hr'⟩
            injection hd' with h1 h2
            subst h1
            subst h2
            rw [hn] at hn'
            have hnn : n = n' := (Option.some.injEq _ _).mp hn'
            subst hnn
            exact absurd hr' (not_le.mpr hr)
        · rw [if_neg hr]
          constructor
          · intro _
            exact ⟨c, cs, n, rfl, fun h => hsign (Or.inl h), fun h => hsign (Or.inr h),
              hn, not_lt.mp hr⟩
          · intro _
            rfl

/-- C8 (amended): `Int()`/`Int64()`/`Uint64()` parse the value in base 10
and fail exactly when the value is not a well-formed decimal integer
(syntax error) or does not fit the parsed bit size — 32 signed bits for
`Int()`, 64 signed bits for `Int64()`, 64 unsigned bits and no sign prefix
for `Uint64()`; consequently every decimal rendering of an integer inside
the respective range round-trips, e.g. `Int(x).Int() = (x, nil)` for
`|x| < 2^31`. -/
theorem C8_parse_accessors :
    (∀ x : GoInt, -(2 ^ 31) ≤ x → x ≤ 2 ^ 31 - 1 → (IntF x).Int = (x, none))
  ∧ (∀ x : GoInt, -(2 ^ 63) ≤ x → x ≤ 2 ^ 63 - 1 → (IntF x).Int64 = (x, none))
  ∧ (∀ n : Nat, n ≤ 2 ^ 64 - 1 → (StringF (natToString n)).Uint64 = (n, none))
  ∧ (∀ f : Field, (f.Int).2 = none ↔
        ∃ v, parseDec? f.value = some v ∧ -(2 ^ 31) ≤ v ∧ v ≤ 2 ^ 31 - 1)
  ∧ (∀ f : Field, (f.Int).2 = some ParseErr.invalidNum ↔ parseDec? f.value = none)
  ∧ (∀ f : Field, (f.Int64).2 = none ↔
        ∃ v, parseDec? f.value = some v ∧ -(2 ^ 63) ≤ v ∧ v ≤ 2 ^ 63 - 1)
  ∧ (∀ f : Field, (f.Int64).2 = some ParseErr.invalidNum ↔ parseDec? f.value = none)
  ∧ (∀ f : Field, (f.Uint64).2 = none ↔
        ∃ c cs n, f.value.data = c :: cs ∧ c ≠ '-' ∧ c ≠ '+'
          ∧ parseNat? (c :: cs) = some n ∧ n ≤ 2 ^ 64 - 1)
  ∧ (∀ (f : Field) (c : Char) (cs : List Char), f.value.data = c :: cs →
        c = '-' ∨ c = '+' → (f.Uint64).2 = some ParseErr.invalidNum) := by
  refine ⟨?_, ?_, ?_, ?_, ?_, ?_, ?_, ?_, ?_⟩
  · intro x h1 h2
    show goParseInt (goItoa x) 32 = (x, none)
    exact goParseInt_goItoa x 32 h1 h2
  · intro x h1 h2
    show goParseInt (goItoa x) 64 = (x, none)
    exact goParseInt_goItoa x 64 h1 h2
  · intro n h
    show goParseUint (natToString n) 64 = (n, none)
    exact goParseUint_natToString n 64 h
  · intro f
    exact goParseInt_snd_none_iff f.value 32
  · intro f
    exact goParseInt_snd_invalid_iff f.value 32
  · intro f
    exact goParseInt_snd_none_iff f.value 64
  · intro f
    exact goParseInt_snd_invalid_iff f.value 64
  · intro f
    exact goParseUint_snd_none_iff f.value 64
  · intro f c cs hd hsign
    show (goParseUint f.value 64).2 = some ParseErr.invalidNum
    rw [goParseUint_sign_invalid f.value c cs hd hsign 64]

/-- C8 witness: round-trips at the int32 boundaries, the int64 and uint64
maxima, the error characterizations at a non-numeric value for all three
accessors, and Uint64's rejection of a sign prefix. -/
theorem C8_witness :
    (IntF 42).Int = (42, none)
  ∧ (IntF (-2147483648)).Int = (-2147483648, none)
  ∧ (IntF 9223372036854775807).Int64 = (9223372036854775807, none)
  ∧ (StringF (natToString 18446744073709551615)).Uint64 = (18446744073709551615, none)
  ∧ (((StringF "abc").Int).2 = some ParseErr.invalidNum ↔ parseDec? "abc" = none)
  ∧ (((StringF "abc").Int64).2 = some ParseErr.invalidNum ↔ parseDec? "abc" = none)
  ∧ (((StringF "9223372036854775808").Int64).2 = none ↔
        ∃ v, parseDec? "9223372036854775808" = some v ∧ -(2 ^ 63) ≤ v ∧ v ≤ 2 ^ 63 - 1)
  ∧ (((StringF "abc").Uint64).2 = none ↔
        ∃ c cs n, ("abc" : String).data = c :: cs ∧ c ≠ '-' ∧ c ≠ '+'
          ∧ parseNat? (c :: cs) = some n ∧ n ≤ 2 ^ 64 - 1)
  ∧ ((StringF "-5").Uint64).2 = some ParseErr.invalidNum := by
  refine ⟨?_, ?_, ?_, ?_, ?_, ?_, ?_, ?_, ?_⟩
  · exact C8_parse_accessors.1 42 (by norm_num) (by norm_num)
  · exact C8_parse_accessors.1 (-2147483648) (by norm_num) (by norm_num)
  · exact C8_parse_accessors.2.1 9223372036854775807 (by norm_num) (by norm_num)
  · exact C8_parse_accessors.2.2.1 18446744073709551615 (by norm_num)
  · exact C8_parse_accessors.2.2.2.2.1 (StringF "abc")
  · exact C8_parse_accessors.2.2.2.2.2.2.1 (StringF "abc")
  · exact C8_parse_accessors.2.2.2.2.2.1 (StringF "9223372036854775808")
  · exact C8_parse_accessors.2.2.2.2.2.2.2.1 (StringF "abc")
  · exact C8_parse_accessors.2.2.2.2.2.2.2.2 (StringF "-5") '-' ['5'] (by decide)
      (Or.inl rfl)

end Redutil
